import Mathlib

/-!
Shallow embedding of the hash map of src/unordered_map/unordered_map.hpp.

The C++ template UnorderedMap<Key, T, Hash, Equal, Allocator> is
instantiated at Key = T = Nat, Equal = equality on Nat; the hash policy is
modelled by an explicit function argument hashFn : Nat → Nat.  The entry
store value_list_ (a std::list) is modelled as a Lean list of entries that
each carry a stable id playing the role of the node address, so that
iterators can be modelled as ids (none standing for end()).  The field
max_load_factor_ (a C++ float) is modelled as an exact rational; every
value it takes in the verified scenarios (1.0 and small integer ratios) is
exactly representable as a float, so the comparisons agree with the C++
ones.  Machine integers (std::size_t) are modelled as Nat; no operation
here can overflow 64 bits in the scenarios considered.
-/

set_option maxRecDepth 20000

namespace UM

/-- One key/value entry of the value list, one std::list node.  The id
models the stable node address. -/
structure MEntry where
  id : Nat
  key : Nat
  val : Nat
deriving Repr, DecidableEq

/-- Bucket descriptor of the source: a count and the iterator to the first
entry of the bucket (none models the past-the-end iterator). -/
structure Bucket where
  size : Nat
  begin : Option Nat
deriving Repr, DecidableEq

/-- The map state: next fresh node id, value_list_, bucket_vector_ and
max_load_factor_. -/
structure UMap where
  nextId : Nat
  entries : List MEntry
  buckets : List Bucket
  mlf : ℚ
deriving Repr, DecidableEq

/-- The identity hash, a legitimate instantiation of the Hash policy
(std::hash<size_t> is commonly the identity). -/
def hashId : Nat → Nat := fun k => k

def size (m : UMap) : Nat := m.entries.length

def bucket_count (m : UMap) : Nat := m.buckets.length

/-- get_hash: hasher(key) % bucket_vector_.size().  A zero bucket count is
undefined behavior in C++ (modulo by zero); Lean evaluates n % 0 to n, and
theorems that depend on this operation assume a positive bucket count. -/
def get_hash (hashFn : Nat → Nat) (m : UMap) (k : Nat) : Nat :=
  hashFn k % m.buckets.length

/-- load_factor(): size() / bucket_count().  Both operands are size_type,
so the source performs integer division and only then converts the result
to float; the conversion is exact at these magnitudes, hence the model
casts the Nat quotient to ℚ. -/
def load_factor (m : UMap) : ℚ :=
  ((size m / bucket_count m : Nat) : ℚ)

/-- static_cast<size_type>(std::ceil(n / q)) for a size_type n and a
positive float q, computed exactly on the rational q: the quotient n / q
equals the integer fraction (n * q.den) / q.num, and the ceiling of a
fraction of naturals p / d (d positive) is (p + d - 1) / d in natural
division.  A non-positive max_load_factor makes the C++ cast of the
negative float quotient undefined behavior; the model returns 0 there and
every theorem that touches this operation assumes a positive
max_load_factor. -/
def ceilDiv (n : Nat) (q : ℚ) : Nat :=
  if q.num ≤ 0 then 0 else (n * q.den + (q.num.toNat - 1)) / q.num.toNat

/-- get_new_bucket_count: max(ceil(size() / max_load_factor()), n).
The inner division is float division; for the rationals used here the
float ceiling equals the exact rational ceiling. -/
def get_new_bucket_count (m : UMap) (n : Nat) : Nat :=
  max (ceilDiv (size m) m.mlf) n

def emptyBucket : Bucket := ⟨0, none⟩

/-- One step of the rehash loop: count the entry into its new bucket and
let the first entry seen for a bucket set the head iterator. -/
def bucketStep (hashFn : Nat → Nat) (n : Nat) (acc : List Bucket) (e : MEntry) : List Bucket :=
  let h := hashFn e.key % n
  let b := acc.getD h emptyBucket
  acc.set h ⟨b.size + 1, if b.size = 0 then some e.id else b.begin⟩

/-- The new bucket vector built by rehash: walk value_list_ in order over
a fresh vector of empty buckets. -/
def buildBuckets (hashFn : Nat → Nat) (n : Nat) (es : List MEntry) : List Bucket :=
  es.foldl (bucketStep hashFn n) (List.replicate n emptyBucket)

/-- rehash(new_bucket_count): the entry order is reused unchanged; only
the bucket vector is rebuilt. -/
def rehash (hashFn : Nat → Nat) (m : UMap) (n0 : Nat) : UMap :=
  { m with buckets := buildBuckets hashFn (get_new_bucket_count m n0) m.entries }

/-- rehash_if_necessary: executed at the top of insert and emplace, on the
pre-insert state. -/
def rehash_if_necessary (hashFn : Nat → Nat) (m : UMap) : UMap :=
  if load_factor m > m.mlf then rehash hashFn m (bucket_count m * 2) else m

/-- reserve(new_size). -/
def reserve (hashFn : Nat → Nat) (m : UMap) (n : Nat) : UMap :=
  if n > size m then rehash hashFn m (ceilDiv n m.mlf) else m

/-- The default constructor: max_load_factor_ = 1.0 and
reserve(kDefaultBucketCount) with kDefaultBucketCount = 8. -/
def defaultMap (hashFn : Nat → Nat) : UMap :=
  reserve hashFn ⟨0, [], [], 1⟩ 8

/-- clear(): empty both structures, then reserve(kDefaultBucketCount). -/
def clear (hashFn : Nat → Nat) (m : UMap) : UMap :=
  reserve hashFn { m with entries := [], buckets := [] } 8

/-- The move constructor: the target steals both structures, the source is
left cleared (the moved-from std::list and std::vector are empty, and
clear() is called on the source). -/
def moveCtor (hashFn : Nat → Nat) (m : UMap) : UMap × UMap :=
  (⟨m.nextId, m.entries, m.buckets, m.mlf⟩, clear hashFn ⟨m.nextId, [], [], m.mlf⟩)

/-- The list position an iterator refers to; none is end().  A stale id
would be undefined behavior in C++; the model lets it act like end(). -/
def idxOfIter (es : List MEntry) (it : Option Nat) : Nat :=
  match it with
  | none => es.length
  | some i => es.findIdx (fun e => e.id == i)

/-- The window scanned for a bucket: bucket.size entries starting at
bucket.begin.  insert guards the scan with it != end(); find omits that
guard, which only matters in states whose scan would already be undefined
behavior in C++, so the model stops at the list end for both. -/
def bucketRun (es : List MEntry) (b : Bucket) : List MEntry :=
  (es.drop (idxOfIter es b.begin)).take b.size

/-- find(key): locate the bucket, scan its run with the equality policy,
return the matching entry or none (modelling the end() sentinel). -/
def find (hashFn : Nat → Nat) (m : UMap) (k : Nat) : Option MEntry :=
  let b := m.buckets.getD (get_hash hashFn m k) emptyBucket
  (bucketRun m.entries b).find? (fun e => e.key == k)

/-- insert(value): rehash_if_necessary, locate the bucket, scan its run;
on a hit return the existing handle with false, otherwise push_back the
new entry at the end of value_list_ and repair the bucket descriptor.
Returns (new state, handle id, inserted flag). -/
def insert (hashFn : Nat → Nat) (m : UMap) (k v : Nat) : UMap × Nat × Bool :=
  let m1 := rehash_if_necessary hashFn m
  let h := get_hash hashFn m1 k
  let b := m1.buckets.getD h emptyBucket
  match (bucketRun m1.entries b).find? (fun e => e.key == k) with
  | some e => (m1, e.id, false)
  | none =>
    ({ m1 with
        nextId := m1.nextId + 1,
        entries := m1.entries ++ [⟨m1.nextId, k, v⟩],
        buckets := m1.buckets.set h
          ⟨b.size + 1, if b.size = 0 then some m1.nextId else b.begin⟩ },
     m1.nextId, true)

/-- Removal of the list node at position i (std::list::erase). -/
def eraseAt (es : List MEntry) (i : Nat) : List MEntry :=
  es.take i ++ es.drop (i + 1)

/-- erase(pos): compute the bucket from the key at pos, repair the bucket
descriptor (advance or reset begin when the head is erased, decrement the
count), then unlink the node; returns (new state, successor iterator). -/
def erase (hashFn : Nat → Nat) (m : UMap) (pos : Nat) : UMap × Option Nat :=
  let i := m.entries.findIdx (fun e => e.id == pos)
  if hlt : i < m.entries.length then
    let e := m.entries.get ⟨i, hlt⟩
    let h := get_hash hashFn m e.key
    let b := m.buckets.getD h emptyBucket
    let succ : Option Nat := ((m.entries.drop (i + 1)).head?).map (fun x => x.id)
    let newBegin := if b.begin = some pos then (if b.size = 1 then none else succ) else b.begin
    ({ m with entries := eraseAt m.entries i,
              buckets := m.buckets.set h ⟨b.size - 1, newBegin⟩ },
     succ)
  else (m, none)

/-- at(key): find, then either the mapped value or the KeyNotFound error
(std::out_of_range), modelled as none. -/
def atKey (hashFn : Nat → Nat) (m : UMap) (k : Nat) : Option Nat :=
  match find hashFn m k with
  | none => none
  | some e => some e.val

/-- The element-by-element loop of the copy constructor with an injected
constructor failure: copying the element at position failAt raises; the
catch block clears the map under construction and propagates, so the
error payload is the state left behind at propagation time. -/
def copyLoop (hashFn : Nat → Nat) (failAt : Option Nat) :
    List MEntry → Nat → UMap → Except UMap UMap
  | [], _, acc => Except.ok acc
  | e :: es, j, acc =>
    if failAt = some j then Except.error (clear hashFn acc)
    else copyLoop hashFn failAt es (j + 1) (insert hashFn acc e.key e.val).1

/-- The copy constructor: copy max_load_factor_, reserve(other.size()),
then insert every element of the source in iteration order. -/
def copyCtor (hashFn : Nat → Nat) (other : UMap) (failAt : Option Nat) : Except UMap UMap :=
  copyLoop hashFn failAt other.entries 0 (reserve hashFn ⟨0, [], [], other.mlf⟩ (size other))

/-- Map states reachable from the default-constructed map by insert, erase
on a live handle, and rehash.  insert and erase carry the precondition
that the bucket vector is nonempty, since get_hash performs a modulo by
bucket_count and C++ leaves modulo by zero undefined. -/
inductive Reachable (hashFn : Nat → Nat) : UMap → Prop
  | init : Reachable hashFn (defaultMap hashFn)
  | step_insert (m : UMap) (k v : Nat) : Reachable hashFn m → 0 < bucket_count m →
      Reachable hashFn (insert hashFn m k v).1
  | step_erase (m : UMap) (e : MEntry) : Reachable hashFn m → e ∈ m.entries →
      0 < bucket_count m → Reachable hashFn (erase hashFn m e.id).1
  | step_rehash (m : UMap) (n : Nat) : Reachable hashFn m → Reachable hashFn (rehash hashFn m n)

/-- The chaining invariant of the spec, as an executable check: every live
entry lies inside the window of bucket.size contiguous positions starting
at bucket.begin of the bucket its key hashes to. -/
def chainInvB (hashFn : Nat → Nat) (m : UMap) : Bool :=
  (List.range m.entries.length).all (fun p =>
    match m.entries.get? p with
    | none => true
    | some e =>
      let b := m.buckets.getD (hashFn e.key % m.buckets.length) emptyBucket
      let i := idxOfIter m.entries b.begin
      decide (i ≤ p ∧ p < i + b.size))

/-- The per-bucket counting invariant: every bucket counts exactly the
live entries whose key hashes to it. -/
def countInv (hashFn : Nat → Nat) (m : UMap) : Prop :=
  ∀ i, i < m.buckets.length →
    (m.buckets.getD i emptyBucket).size
      = (m.entries.filter (fun e => hashFn e.key % m.buckets.length == i)).length

/-- The inductive invariant carried along Reachable: the default
max_load_factor, freshness of nextId, a nonempty bucket vector whenever an
entry is live, and the per-bucket counting invariant. -/
def Inv (hashFn : Nat → Nat) (m : UMap) : Prop :=
  m.mlf = 1 ∧ (∀ e ∈ m.entries, e.id < m.nextId) ∧
    (m.entries ≠ [] → 0 < m.buckets.length) ∧ countInv hashFn m

/-- The state after insert(0), insert(1), insert(8) on the default map
with the identity hash: keys 0 and 8 share bucket 0 of the 8 buckets,
with the entry of key 1 interleaved between them in value_list_. -/
def mThree : UMap :=
  (insert hashId (insert hashId (insert hashId (defaultMap hashId) 0 10).1 1 11).1 8 12).1

/-- The state after insert(0), insert(1), insert(2) on the default map
with the identity hash: three entries in three distinct buckets of 8. -/
def mC7 : UMap :=
  (insert hashId (insert hashId (insert hashId (defaultMap hashId) 0 10).1 1 11).1 2 12).1

/-- The state after inserting the sixteen distinct keys 0..15 on the
default map with the identity hash. -/
def mSixteen : UMap :=
  (List.range 16).foldl (fun m k => (insert hashId m k k).1) (defaultMap hashId)

/-! General list helpers. -/

theorem getD_set_self {α : Type} {l : List α} {i : Nat} {a d : α} (h : i < l.length) :
    (l.set i a).getD i d = a := by
  rw [List.getD_eq_getElem?_getD, List.getElem?_set_self h]
  rfl

theorem getD_set_ne {α : Type} {l : List α} {i j : Nat} (h : i ≠ j) {a d : α} :
    (l.set i a).getD j d = l.getD j d := by
  rw [List.getD_eq_getElem?_getD, List.getElem?_set_ne h, ← List.getD_eq_getElem?_getD]

theorem getD_replicate {α : Type} {n i : Nat} {a d : α} (h : i < n) :
    (List.replicate n a).getD i d = a := by
  rw [List.getD_eq_getElem?_getD, List.getElem?_replicate]
  simp [h]

theorem sum_eq_sum_getD (l : List Nat) :
    l.sum = ∑ i ∈ Finset.range l.length, l.getD i 0 := by
  induction l with
  | nil => simp
  | cons a t ih =>
      rw [List.sum_cons, List.length_cons, Finset.sum_range_succ']
      simp only [List.getD_cons_succ, List.getD_cons_zero]
      rw [← ih]
      exact Nat.add_comm a t.sum

theorem sum_filter_counts {α : Type} {g : α → Nat} {n : Nat} :
    ∀ (es : List α), (∀ e ∈ es, g e < n) →
      (∑ i ∈ Finset.range n, (es.filter (fun e => g e == i)).length) = es.length
  | [], _ => by simp
  | e :: es, h => by
      have hg : g e ∈ Finset.range n := Finset.mem_range.mpr (h e (by simp))
      have ih := sum_filter_counts es (fun x hx => h x (by simp [hx]))
      have hlen : ∀ i, ((e :: es).filter (fun x => g x == i)).length
          = ((if g e = i then 1 else 0) + (es.filter (fun x => g x == i)).length) := by
        intro i
        by_cases hei : g e = i
        · simp [List.filter_cons, hei]
          omega
        · simp [List.filter_cons, hei]
      rw [Finset.sum_congr rfl (fun i _ => hlen i), Finset.sum_add_distrib, ih]
      have hone : (∑ i ∈ Finset.range n, if g e = i then 1 else 0) = 1 := by
        rw [Finset.sum_eq_single_of_mem (g e) hg (fun b _ hb => if_neg (fun hc => hb hc.symm))]
        exact if_pos rfl
      rw [hone]
      simp [Nat.add_comm]

/-! Helpers about the rehash fold. -/

theorem length_foldl_bucketStep (hashFn : Nat → Nat) (n : Nat) :
    ∀ (es : List MEntry) (acc : List Bucket),
      (es.foldl (bucketStep hashFn n) acc).length = acc.length
  | [], _ => rfl
  | e :: es, acc => by
      rw [List.foldl_cons, length_foldl_bucketStep hashFn n es]
      simp [bucketStep]

theorem size_foldl_bucketStep (hashFn : Nat → Nat) (n : Nat) :
    ∀ (es : List MEntry) (acc : List Bucket) (i : Nat), acc.length = n → i < n →
      ((es.foldl (bucketStep hashFn n) acc).getD i emptyBucket).size
        = ((acc.getD i emptyBucket).size
            + (es.filter (fun e => hashFn e.key % n == i)).length)
  | [], _, i, _, _ => by simp
  | e :: es, acc, i, hlen, hi => by
      rw [List.foldl_cons]
      have hlen' : (bucketStep hashFn n acc e).length = n := by simp [bucketStep, hlen]
      rw [size_foldl_bucketStep hashFn n es _ i hlen' hi]
      by_cases hei : hashFn e.key % n = i
      · have hset : ((bucketStep hashFn n acc e).getD i emptyBucket).size
            = (acc.getD i emptyBucket).size + 1 := by
          unfold bucketStep
          rw [← hei, getD_set_self (by rw [hlen]; exact hei ▸ hi)]
        rw [hset]
        simp only [List.filter_cons, hei]
        simp
        omega
      · have hset : ((bucketStep hashFn n acc e).getD i emptyBucket).size
            = (acc.getD i emptyBucket).size := by
          unfold bucketStep
          rw [getD_set_ne hei]
        rw [hset]
        simp only [List.filter_cons]
        rw [if_neg (by simpa using hei)]

/-! Small facts about the operations. -/

theorem entries_rehash (hashFn : Nat → Nat) (m : UMap) (n0 : Nat) :
    (rehash hashFn m n0).entries = m.entries := rfl

theorem mlf_rehash (hashFn : Nat → Nat) (m : UMap) (n0 : Nat) :
    (rehash hashFn m n0).mlf = m.mlf := rfl

theorem nextId_rehash (hashFn : Nat → Nat) (m : UMap) (n0 : Nat) :
    (rehash hashFn m n0).nextId = m.nextId := rfl

theorem entries_rif (hashFn : Nat → Nat) (m : UMap) :
    (rehash_if_necessary hashFn m).entries = m.entries := by
  unfold rehash_if_necessary
  split <;> rfl

theorem mlf_rif (hashFn : Nat → Nat) (m : UMap) :
    (rehash_if_necessary hashFn m).mlf = m.mlf := by
  unfold rehash_if_necessary
  split <;> rfl

theorem nextId_rif (hashFn : Nat → Nat) (m : UMap) :
    (rehash_if_necessary hashFn m).nextId = m.nextId := by
  unfold rehash_if_necessary
  split <;> rfl

theorem bc_rehash (hashFn : Nat → Nat) (m : UMap) (n0 : Nat) :
    bucket_count (rehash hashFn m n0) = get_new_bucket_count m n0 := by
  simp [rehash, bucket_count, buildBuckets, length_foldl_bucketStep]

theorem mlf_insert (hashFn : Nat → Nat) (m : UMap) (k v : Nat) :
    ((insert hashFn m k v).1).mlf = m.mlf := by
  unfold insert
  dsimp only
  split <;> simpa using mlf_rif hashFn m

theorem bc_insert (hashFn : Nat → Nat) (m : UMap) (k v : Nat) :
    bucket_count ((insert hashFn m k v).1) = bucket_count (rehash_if_necessary hashFn m) := by
  unfold insert
  dsimp only
  split <;> simp [bucket_count]

theorem bc_erase (hashFn : Nat → Nat) (m : UMap) (pos : Nat) :
    bucket_count ((erase hashFn m pos).1) = bucket_count m := by
  unfold erase
  dsimp only
  split <;> simp [bucket_count]

theorem bc_rif_pos (hashFn : Nat → Nat) (m : UMap) (h : 0 < bucket_count m) :
    0 < bucket_count (rehash_if_necessary hashFn m) := by
  unfold rehash_if_necessary
  split
  · rw [bc_rehash]
    unfold get_new_bucket_count
    have h2 : 0 < bucket_count m * 2 := by omega
    exact lt_of_lt_of_le h2 (le_max_right _ _)
  · exact h

/-! Facts about ceilDiv. -/

theorem ceilDiv_zero (q : ℚ) : ceilDiv 0 q = 0 := by
  unfold ceilDiv
  split
  · rfl
  · rename_i hq
    have hd : 0 < q.num.toNat := by omega
    simp [Nat.div_eq_of_lt (by omega : q.num.toNat - 1 < q.num.toNat)]

theorem ceilDiv_one (n : Nat) : ceilDiv n 1 = n := by
  unfold ceilDiv
  norm_num

theorem one_le_ceilDiv_eight (q : ℚ) (h : 0 < q) : 1 ≤ ceilDiv 8 q := by
  unfold ceilDiv
  have hnum : 0 < q.num := Rat.num_pos.mpr h
  rw [if_neg (by omega)]
  have hd : 0 < q.num.toNat := by omega
  have hden : 0 < q.den := q.pos
  rw [Nat.le_div_iff_mul_le hd]
  omega

theorem defaultMap_eq (hashFn : Nat → Nat) :
    defaultMap hashFn = ⟨0, [], List.replicate 8 emptyBucket, 1⟩ := by
  unfold defaultMap reserve rehash get_new_bucket_count buildBuckets
  norm_num [size, ceilDiv_one, ceilDiv_zero]

theorem clear_eq (hashFn : Nat → Nat) (m : UMap) :
    clear hashFn m = ⟨m.nextId, [], List.replicate (ceilDiv 8 m.mlf) emptyBucket, m.mlf⟩ := by
  unfold clear reserve rehash get_new_bucket_count buildBuckets
  norm_num [size, ceilDiv_zero]

/-! Helpers about scans, insert on a missing key, and erase of the
appended entry. -/

theorem mem_of_mem_bucketRun {es : List MEntry} {b : Bucket} {e : MEntry}
    (he : e ∈ bucketRun es b) : e ∈ es :=
  ((List.take_sublist _ _).trans (List.drop_sublist _ _)).mem he

theorem find?_run_none {k : Nat} {es : List MEntry} (hk : ∀ e ∈ es, e.key ≠ k) (b : Bucket) :
    (bucketRun es b).find? (fun e => e.key == k) = none := by
  apply List.find?_eq_none.mpr
  intro e he
  simp [hk e (mem_of_mem_bucketRun he)]

theorem insert_not_found (hashFn : Nat → Nat) (m : UMap) (k v : Nat)
    (hk : ∀ e ∈ m.entries, e.key ≠ k) :
    insert hashFn m k v =
      (let m1 := rehash_if_necessary hashFn m
       let h := get_hash hashFn m1 k
       let b := m1.buckets.getD h emptyBucket
       ({ m1 with
           nextId := m1.nextId + 1,
           entries := m1.entries ++ [⟨m1.nextId, k, v⟩],
           buckets := m1.buckets.set h
             ⟨b.size + 1, if b.size = 0 then some m1.nextId else b.begin⟩ },
        m1.nextId, true)) := by
  unfold insert
  dsimp only
  rw [find?_run_none (by rw [entries_rif]; exact hk)]

theorem findIdx_append_singleton {l : List MEntry} {a : MEntry} {p : MEntry → Bool}
    (hl : ∀ x ∈ l, p x = false) (ha : p a = true) :
    (l ++ [a]).findIdx p = l.length := by
  rw [List.findIdx_append]
  rw [List.findIdx_eq_length.mpr hl, if_neg (lt_irrefl _)]
  simp [List.findIdx_cons, ha]

theorem eraseAt_append_singleton (l : List MEntry) (a : MEntry) :
    eraseAt (l ++ [a]) l.length = l := by
  unfold eraseAt
  rw [List.take_left]
  have hdrop : (l ++ [a]).drop (l.length + 1) = [] := by
    rw [← List.drop_drop, List.drop_left]
    rfl
  rw [hdrop, List.append_nil]

theorem get_append_length {l : List MEntry} {a : MEntry} (h : l.length < (l ++ [a]).length) :
    (l ++ [a]).get ⟨l.length, h⟩ = a := by
  simp [List.get_eq_getElem, List.getElem_append_right (le_refl l.length)]

/-! The counting invariant and its preservation along Reachable. -/

theorem length_buildBuckets (hashFn : Nat → Nat) (n : Nat) (es : List MEntry) :
    (buildBuckets hashFn n es).length = n := by
  simp [buildBuckets, length_foldl_bucketStep]

theorem countInv_buildBuckets (hashFn : Nat → Nat) (n : Nat) (es : List MEntry)
    (i : Nat) (hi : i < n) :
    ((buildBuckets hashFn n es).getD i emptyBucket).size
      = (es.filter (fun e => hashFn e.key % n == i)).length := by
  unfold buildBuckets
  rw [size_foldl_bucketStep hashFn n es (List.replicate n emptyBucket) i (by simp) hi]
  rw [getD_replicate hi]
  simp [emptyBucket]

theorem countInv_rehash (hashFn : Nat → Nat) (m : UMap) (n0 : Nat) :
    countInv hashFn (rehash hashFn m n0) := by
  intro i hi
  simp only [rehash] at hi ⊢
  rw [length_buildBuckets] at hi ⊢
  exact countInv_buildBuckets hashFn _ m.entries i hi

theorem inv_default (hashFn : Nat → Nat) : Inv hashFn (defaultMap hashFn) := by
  rw [defaultMap_eq]
  refine ⟨rfl, by simp, by simp, ?_⟩
  intro i hi
  simp only [List.length_replicate] at hi
  rw [getD_replicate hi]
  rfl

theorem inv_rehash (hashFn : Nat → Nat) (m : UMap) (n0 : Nat) (h : Inv hashFn m) :
    Inv hashFn (rehash hashFn m n0) := by
  obtain ⟨h1, h2, h3, _⟩ := h
  refine ⟨h1, h2, ?_, countInv_rehash hashFn m n0⟩
  intro hne
  rw [show (rehash hashFn m n0).entries = m.entries from rfl] at hne
  have hpos : 0 < size m := List.length_pos.mpr hne
  have : 0 < get_new_bucket_count m n0 := by
    unfold get_new_bucket_count
    rw [h1, ceilDiv_one]
    exact lt_of_lt_of_le hpos (le_max_left _ _)
  simpa [bucket_count, rehash, length_buildBuckets] using this

theorem inv_rif (hashFn : Nat → Nat) (m : UMap) (h : Inv hashFn m) :
    Inv hashFn (rehash_if_necessary hashFn m) := by
  unfold rehash_if_necessary
  split
  · exact inv_rehash hashFn m _ h
  · exact h

theorem inv_insert (hashFn : Nat → Nat) (m : UMap) (k v : Nat)
    (h : Inv hashFn m) (hbc : 0 < bucket_count m) :
    Inv hashFn ((insert hashFn m k v).1) := by
  have hm1 : Inv hashFn (rehash_if_necessary hashFn m) := inv_rif hashFn m h
  have hbc1 : 0 < bucket_count (rehash_if_necessary hashFn m) := bc_rif_pos hashFn m hbc
  unfold insert
  dsimp only
  split
  · exact hm1
  · obtain ⟨h1, h2, h3, h4⟩ := hm1
    set m1 := rehash_if_necessary hashFn m with hm1eq
    set hsh := get_hash hashFn m1 k with hhsheq
    have hshlt : hsh < m1.buckets.length := by
      rw [hhsheq]
      unfold get_hash
      exact Nat.mod_lt _ hbc1
    refine ⟨h1, ?_, ?_, ?_⟩
    · intro e he
      rcases List.mem_append.mp he with he | he
      · exact Nat.lt_succ_of_lt (h2 e he)
      · simp only [List.mem_singleton] at he
        subst he
        exact Nat.lt_succ_self _
    · intro _
      simpa [bucket_count, List.length_set] using hbc1
    · intro i hi
      simp only [List.length_set] at hi ⊢
      have hpass : (hashFn k % m1.buckets.length == hsh) = true := by
        simp [hhsheq, get_hash]
      by_cases hih : i = hsh
      · subst hih
        rw [getD_set_self hshlt]
        dsimp only
        rw [List.filter_append, List.length_append, h4 hsh hshlt]
        simp [List.filter_cons, hpass]
      · rw [getD_set_ne (fun hc => hih hc.symm)]
        rw [List.filter_append, List.length_append]
        have hfail : (hashFn k % m1.buckets.length == i) = false := by
          simp only [hhsheq, get_hash] at hih ⊢
          simp [Ne.symm hih]
        have hnil : List.filter (fun e => hashFn e.key % m1.buckets.length == i)
            [(⟨m1.nextId, k, v⟩ : MEntry)] = [] := by
          simp [List.filter_cons, hfail]
        rw [hnil, List.length_nil, Nat.add_zero]
        exact h4 i hi

theorem mem_of_mem_eraseAt {es : List MEntry} {i : Nat} {x : MEntry}
    (hx : x ∈ eraseAt es i) : x ∈ es := by
  unfold eraseAt at hx
  rcases List.mem_append.mp hx with hx | hx
  · exact (List.take_sublist _ _).mem hx
  · exact (List.drop_sublist _ _).mem hx

theorem inv_erase (hashFn : Nat → Nat) (m : UMap) (pos : Nat)
    (h : Inv hashFn m) (hbc : 0 < bucket_count m)
    (hex : ∃ x ∈ m.entries, x.id = pos) :
    Inv hashFn ((erase hashFn m pos).1) := by
  obtain ⟨h1, h2, h3, h4⟩ := h
  have hlt : m.entries.findIdx (fun e => e.id == pos) < m.entries.length := by
    apply List.findIdx_lt_length_of_exists
    obtain ⟨x, hx, hxid⟩ := hex
    exact ⟨x, hx, by simp [hxid]⟩
  unfold erase
  dsimp only
  rw [dif_pos hlt]
  set i := m.entries.findIdx (fun e => e.id == pos) with hieq
  set e := m.entries.get ⟨i, hlt⟩ with heeq
  set hsh := get_hash hashFn m e.key with hhsheq
  have hshlt : hsh < m.buckets.length := by
    rw [hhsheq]
    unfold get_hash
    exact Nat.mod_lt _ hbc
  have hdecomp : m.entries.take i ++ e :: m.entries.drop (i + 1) = m.entries := by
    rw [heeq, List.get_eq_getElem, ← List.drop_eq_getElem_cons hlt, List.take_append_drop]
  refine ⟨h1, ?_, ?_, ?_⟩
  · intro x hx
    exact h2 x (mem_of_mem_eraseAt hx)
  · intro _
    simpa [bucket_count, List.length_set] using hbc
  · intro j hj
    simp only [List.length_set] at hj ⊢
    have hcount : ∀ jj, (m.entries.filter (fun x => hashFn x.key % m.buckets.length == jj)).length
        = ((m.entries.take i).filter (fun x => hashFn x.key % m.buckets.length == jj)).length
          + ((if (hashFn e.key % m.buckets.length == jj) then 1 else 0)
          + ((m.entries.drop (i + 1)).filter (fun x => hashFn x.key % m.buckets.length == jj)).length) := by
      intro jj
      conv_lhs => rw [← hdecomp]
      rw [List.filter_append, List.length_append, List.filter_cons]
      by_cases hpass : (hashFn e.key % m.buckets.length == jj) = true
      · rw [if_pos hpass, if_pos hpass]
        simp
        omega
      · rw [if_neg hpass, if_neg hpass]
        simp
    have herased : ∀ jj, ((eraseAt m.entries i).filter
        (fun x => hashFn x.key % m.buckets.length == jj)).length
        = ((m.entries.take i).filter (fun x => hashFn x.key % m.buckets.length == jj)).length
          + ((m.entries.drop (i + 1)).filter (fun x => hashFn x.key % m.buckets.length == jj)).length := by
      intro jj
      unfold eraseAt
      rw [List.filter_append, List.length_append]
    by_cases hjh : j = hsh
    · subst hjh
      rw [getD_set_self hshlt, herased]
      dsimp only
      have hpass : (hashFn e.key % m.buckets.length == hsh) = true := by
        simp [hhsheq, get_hash]
      have hc := hcount hsh
      rw [hpass] at hc
      simp at hc
      rw [h4 hsh hshlt, hc]
      omega
    · rw [getD_set_ne (fun hc => hjh hc.symm), herased]
      have hfail : (hashFn e.key % m.buckets.length == j) = false := by
        simp only [hhsheq, get_hash] at hjh ⊢
        simp [Ne.symm hjh]
      have hc := hcount j
      rw [hfail] at hc
      rw [h4 j hj, hc]
      simp

theorem reachable_inv (hashFn : Nat → Nat) (m : UMap) (h : Reachable hashFn m) :
    Inv hashFn m := by
  induction h with
  | init => exact inv_default hashFn
  | step_insert m k v hr hbc ih => exact inv_insert hashFn m k v ih hbc
  | step_erase m e hr he hbc ih => exact inv_erase hashFn m e.id ih hbc ⟨e, he, rfl⟩
  | step_rehash m n hr ih => exact inv_rehash hashFn m n ih

theorem sum_counts_of_inv (hashFn : Nat → Nat) (m : UMap) (h : Inv hashFn m) :
    (m.buckets.map (fun b => b.size)).sum = m.entries.length := by
  obtain ⟨_, _, h3, h4⟩ := h
  by_cases hbc : m.buckets.length = 0
  · have hb : m.buckets = [] := List.length_eq_zero.mp hbc
    have hents : m.entries = [] := by
      by_contra hne
      have := h3 hne
      omega
    simp [hb, hents]
  · have hbcpos : 0 < m.buckets.length := Nat.pos_of_ne_zero hbc
    rw [sum_eq_sum_getD]
    have hmaplen : (m.buckets.map (fun b => b.size)).length = m.buckets.length := by simp
    rw [hmaplen]
    have hgetD : ∀ i, i < m.buckets.length →
        (m.buckets.map (fun b => b.size)).getD i 0 = (m.buckets.getD i emptyBucket).size := by
      intro i hi
      rw [List.getD_eq_getElem?_getD, List.getElem?_map, List.getD_eq_getElem?_getD,
        List.getElem?_eq_getElem hi]
      rfl
    rw [Finset.sum_congr rfl
      (fun i hi => by rw [hgetD i (Finset.mem_range.mp hi), h4 i (Finset.mem_range.mp hi)])]
    exact sum_filter_counts m.entries (fun e _ => Nat.mod_lt _ hbcpos)

/-! Helpers for the copy constructor rollback and for concrete
reachability. -/

theorem mlf_reserve (hashFn : Nat → Nat) (m : UMap) (n : Nat) :
    (reserve hashFn m n).mlf = m.mlf := by
  unfold reserve
  split <;> rfl

theorem copyLoop_error (hashFn : Nat → Nat) (i : Nat) :
    ∀ (es : List MEntry) (j : Nat) (acc : UMap), j ≤ i → i < j + es.length →
      ∃ a : UMap, copyLoop hashFn (some i) es j acc = Except.error (clear hashFn a) ∧
        a.mlf = acc.mlf
  | [], j, acc, hj, hlt => by simp at hlt; omega
  | e :: es, j, acc, hj, hlt => by
      by_cases hij : i = j
      · subst hij
        exact ⟨acc, by simp [copyLoop], rfl⟩
      · have hne : ¬ ((some i : Option Nat) = some j) := by simpa using hij
        obtain ⟨a, ha, hamlf⟩ := copyLoop_error hashFn i es (j + 1)
          ((insert hashFn acc e.key e.val).1) (by omega) (by simp at hlt ⊢; omega)
        refine ⟨a, ?_, by rw [hamlf, mlf_insert]⟩
        unfold copyLoop
        rw [if_neg hne]
        exact ha

theorem bc_insert_pos (hashFn : Nat → Nat) (m : UMap) (k v : Nat)
    (h : 0 < bucket_count m) : 0 < bucket_count ((insert hashFn m k v).1) := by
  rw [bc_insert]
  exact bc_rif_pos hashFn m h

theorem reachable_foldl_inserts (hashFn : Nat → Nat) :
    ∀ (ks : List Nat) (m : UMap), Reachable hashFn m → 0 < bucket_count m →
      Reachable hashFn (ks.foldl (fun mm kk => (insert hashFn mm kk kk).1) m)
  | [], _, hr, _ => hr
  | kk :: ks, m, hr, hbc => by
      rw [List.foldl_cons]
      exact reachable_foldl_inserts hashFn ks _ (Reachable.step_insert m kk kk hr hbc)
        (bc_insert_pos hashFn m kk kk hbc)

theorem reachable_mThree : Reachable hashId mThree := by
  unfold mThree
  exact Reachable.step_insert _ 8 12
    (Reachable.step_insert _ 1 11
      (Reachable.step_insert _ 0 10 Reachable.init (by decide)) (by decide)) (by decide)

theorem reachable_mC7 : Reachable hashId mC7 := by
  unfold mC7
  exact Reachable.step_insert _ 2 12
    (Reachable.step_insert _ 1 11
      (Reachable.step_insert _ 0 10 Reachable.init (by decide)) (by decide)) (by decide)

theorem reachable_mSixteen : Reachable hashId mSixteen := by
  unfold mSixteen
  exact reachable_foldl_inserts hashId (List.range 16) (defaultMap hashId)
    Reachable.init (by decide)

/-! The round-trip helper: inserting an absent key and erasing the
returned handle restores the entry list. -/

theorem entries_erase_of_insert (hashFn : Nat → Nat) (m : UMap) (k v : Nat)
    (hk : ∀ e ∈ m.entries, e.key ≠ k)
    (hid : ∀ e ∈ m.entries, e.id ≠ m.nextId) :
    ((erase hashFn (insert hashFn m k v).1 (insert hashFn m k v).2.1).1).entries = m.entries ∧
      (insert hashFn m k v).2.2 = true := by
  rw [insert_not_found hashFn m k v hk]
  dsimp only
  refine ⟨?_, rfl⟩
  unfold erase
  dsimp only
  have hfidx : ((rehash_if_necessary hashFn m).entries
        ++ [(⟨(rehash_if_necessary hashFn m).nextId, k, v⟩ : MEntry)]).findIdx
        (fun e => e.id == (rehash_if_necessary hashFn m).nextId)
      = (rehash_if_necessary hashFn m).entries.length := by
    apply findIdx_append_singleton
    · intro x hx
      rw [entries_rif] at hx
      have hne := hid x hx
      rw [nextId_rif]
      simpa using hne
    · simp
  rw [hfidx]
  rw [dif_pos (by simp)]
  dsimp only
  rw [eraseAt_append_singleton, entries_rif]

/-! The claims. -/

/-- Claim C1: the chaining invariant fails on the code.  In the reachable
state mThree (insert 0, then 1, then 8, identity hash, 8 buckets), the
entry of key 8 lies at list position 2, outside the window of positions
of bucket 0 = 8 mod 8, whose begin handle is position 0 and whose count is
2: insert appends at the end of the whole value list instead of adjacent
to the run of its bucket, so the bucket runs do not cover every live
entry. -/
theorem C1_chaining_invariant_violated :
    Reachable hashId mThree ∧ chainInvB hashId mThree = false :=
  ⟨reachable_mThree, by decide⟩

/-- Claim C2: find can miss an inserted and never-erased key.  In the
reachable state mThree, key 8 was inserted (its entry is live) and never
erased, yet find(8) scans only the two window entries with keys 0 and 1
and returns the not-found sentinel. -/
theorem C2_find_misses_inserted_key :
    Reachable hashId mThree ∧ (∃ e ∈ mThree.entries, e.key = 8) ∧
      find hashId mThree 8 = none :=
  ⟨reachable_mThree, by decide, by decide⟩

/-- Claim C3: duplicate insert is not always detected.  In the reachable
state mThree the key 8 is already present, yet insert(8, 99) misses it in
the scanned window, reports inserted = true, and leaves two live entries
with key 8. -/
theorem C3_duplicate_insert_not_detected :
    Reachable hashId mThree ∧ (∃ e ∈ mThree.entries, e.key = 8) ∧
      (insert hashId mThree 8 99).2.2 = true ∧
      ((insert hashId mThree 8 99).1.entries.filter (fun e => e.key == 8)).length = 2 :=
  ⟨reachable_mThree, by decide, by decide, by decide⟩

/-- Claim C4: round trip.  For every map state with a nonempty bucket
vector, a key absent from the value list and a fresh next node id,
inserting (k, v) reports inserted = true, and erasing the returned handle
restores size() to its pre-insert value and makes find(k) return the
not-found sentinel. -/
theorem C4_insert_erase_round_trip (hashFn : Nat → Nat) (m : UMap) (k v : Nat)
    (_hbc : 0 < bucket_count m)
    (hk : ∀ e ∈ m.entries, e.key ≠ k)
    (hid : ∀ e ∈ m.entries, e.id ≠ m.nextId) :
    (insert hashFn m k v).2.2 = true ∧
      size ((erase hashFn (insert hashFn m k v).1 (insert hashFn m k v).2.1).1) = size m ∧
      find hashFn ((erase hashFn (insert hashFn m k v).1 (insert hashFn m k v).2.1).1) k
        = none := by
  obtain ⟨hent, hflag⟩ := entries_erase_of_insert hashFn m k v hk hid
  refine ⟨hflag, ?_, ?_⟩
  · unfold size
    rw [hent]
  · unfold find
    dsimp only
    exact find?_run_none (fun e he => hk e (hent ▸ he)) _

/-- Witness for C4 at the default map with key 3 and value 5. -/
theorem C4_round_trip_witness :
    (insert hashId (defaultMap hashId) 3 5).2.2 = true ∧
      size ((erase hashId (insert hashId (defaultMap hashId) 3 5).1
        (insert hashId (defaultMap hashId) 3 5).2.1).1) = size (defaultMap hashId) ∧
      find hashId ((erase hashId (insert hashId (defaultMap hashId) 3 5).1
        (insert hashId (defaultMap hashId) 3 5).2.1).1) 3 = none :=
  C4_insert_erase_round_trip hashId (defaultMap hashId) 3 5 (by decide) (by decide) (by decide)

/-- Claim C5: the growth policy fails on the code.  Inserting the sixteen
distinct keys 0..15 into the default map (identity hash) never triggers a
rehash, because rehash_if_necessary checks the pre-insert load factor;
after the sixteenth insert returns, the map is reachable, bucket_count is
still 8, and load_factor() = 2 exceeds max_load_factor() = 1 — the exact
ratio size/bucket_count is also 2. -/
theorem C5_load_factor_exceeds_max_after_insert :
    Reachable hashId mSixteen ∧ mSixteen.mlf = 1 ∧ bucket_count mSixteen = 8 ∧
      size mSixteen = 16 ∧ load_factor mSixteen = 2 ∧
      ¬ load_factor mSixteen ≤ mSixteen.mlf ∧
      (size mSixteen : ℚ) / (bucket_count mSixteen : ℚ) = 2 := by
  refine ⟨reachable_mSixteen, by decide, by decide, by decide, by decide, by decide, ?_⟩
  rw [show size mSixteen = 16 from by decide, show bucket_count mSixteen = 8 from by decide]
  norm_num

/-- Claim C6: in every reachable state, size() equals the sum of the
bucket counts, and both equal the number of live entries of the value
list. -/
theorem C6_size_eq_sum_bucket_counts (hashFn : Nat → Nat) (m : UMap)
    (h : Reachable hashFn m) :
    size m = (m.buckets.map (fun b => b.size)).sum ∧ size m = m.entries.length :=
  ⟨(sum_counts_of_inv hashFn m (reachable_inv hashFn m h)).symm, rfl⟩

/-- Witness for C6 at the reachable state mThree. -/
theorem C6_size_witness :
    size mThree = (mThree.buckets.map (fun b => b.size)).sum ∧
      size mThree = mThree.entries.length :=
  C6_size_eq_sum_bucket_counts hashId mThree reachable_mThree

/-- Claim C7: load_factor does not return the exact ratio.  In the
reachable state mC7, with 3 entries and 8 buckets, the exact rational
ratio is 3/8, but load_factor() computes the size_type integer division
3 / 8 = 0 first and returns 0. -/
theorem C7_load_factor_integer_division :
    Reachable hashId mC7 ∧ size mC7 = 3 ∧ bucket_count mC7 = 8 ∧
      load_factor mC7 = 0 ∧
      (size mC7 : ℚ) / (bucket_count mC7 : ℚ) = 3 / 8 ∧
      load_factor mC7 ≠ (size mC7 : ℚ) / (bucket_count mC7 : ℚ) := by
  have hs : size mC7 = 3 := by decide
  have hb : bucket_count mC7 = 8 := by decide
  have hq : (size mC7 : ℚ) / (bucket_count mC7 : ℚ) = 3 / 8 := by
    rw [hs, hb]
    norm_num
  refine ⟨reachable_mC7, hs, hb, by decide, hq, ?_⟩
  rw [hq, show load_factor mC7 = 0 from by decide]
  norm_num

/-- Claim C8: at(key) fails with KeyNotFound exactly when find(key)
returns the not-found sentinel, and otherwise returns the mapped value of
the entry find located; find itself signals absence only through the
sentinel. -/
theorem C8_at_fails_iff_absent (hashFn : Nat → Nat) (m : UMap) (k : Nat) :
    (atKey hashFn m k = none ↔ find hashFn m k = none) ∧
      atKey hashFn m k = (find hashFn m k).map (fun e => e.val) := by
  unfold atKey
  cases hf : find hashFn m k <;> simp

/-- Claim C9: if the element-by-element copy of the copy constructor
fails at any position, the catch block rolls the copy back to an empty,
valid map state — no entries, a nonempty bucket vector, every bucket
empty — before the error propagates. -/
theorem C9_copy_failure_rolls_back (hashFn : Nat → Nat) (other : UMap) (i : Nat)
    (hi : i < other.entries.length) (hmlf : 0 < other.mlf) :
    ∃ st : UMap, copyCtor hashFn other (some i) = Except.error st ∧
      st.entries = [] ∧ 0 < st.buckets.length ∧
      ∀ b ∈ st.buckets, b.size = 0 ∧ b.begin = none := by
  unfold copyCtor
  obtain ⟨a, ha, hamlf⟩ := copyLoop_error hashFn i other.entries 0
    (reserve hashFn ⟨0, [], [], other.mlf⟩ (size other)) (Nat.zero_le i) (by omega)
  have hmlfa : a.mlf = other.mlf := by
    rw [hamlf, mlf_reserve]
  refine ⟨clear hashFn a, ha, ?_, ?_, ?_⟩
  · rw [clear_eq]
  · rw [clear_eq]
    simpa using one_le_ceilDiv_eight a.mlf (hmlfa ▸ hmlf)
  · intro b hb
    rw [clear_eq] at hb
    have hbeq : b = emptyBucket := List.eq_of_mem_replicate hb
    subst hbeq
    exact ⟨rfl, rfl⟩

/-- Witness for C9: copying mThree with the copy of element 1 failing. -/
theorem C9_rollback_witness :
    ∃ st : UMap, copyCtor hashId mThree (some 1) = Except.error st ∧
      st.entries = [] ∧ 0 < st.buckets.length ∧
      ∀ b ∈ st.buckets, b.size = 0 ∧ b.begin = none :=
  C9_copy_failure_rolls_back hashId mThree 1 (by decide) (by decide)

/-- Counterexample for C10: rehash is a public operation, and calling
rehash(0) on the freshly constructed (empty) map sets the bucket count to
max(ceil(0 / 1.0), 0) = 0, leaving the bucket vector empty, so the claim
that every public operation leaves bucket_count() at least 1 is false. -/
theorem C10_rehash_zero_empties_bucket_vector :
    ¬ 0 < bucket_count (rehash hashId (defaultMap hashId) 0) := by decide

/-- Claim C10 as amended: after default construction, after clear, and on
the source of a move, bucket_count() is exactly the default 8 (given the
default max_load_factor 1.0), and insert and erase preserve a positive
bucket_count, so the modulo of get_hash inside insert, find, at and erase
is never a modulo by zero along those operations; only a direct rehash
call with a small argument on a small map can zero the bucket vector. -/
theorem C10_bucket_count_positive_amended (hashFn : Nat → Nat) (m : UMap) (k v p : Nat)
    (hmlf : m.mlf = 1) (hbc : 0 < bucket_count m) :
    bucket_count (defaultMap hashFn) = 8 ∧
      bucket_count (clear hashFn m) = 8 ∧
      bucket_count ((moveCtor hashFn m).2) = 8 ∧
      0 < bucket_count ((insert hashFn m k v).1) ∧
      0 < bucket_count ((erase hashFn m p).1) := by
  refine ⟨?_, ?_, ?_, ?_, ?_⟩
  · rw [defaultMap_eq]
    simp [bucket_count]
  · rw [clear_eq]
    simp [bucket_count, hmlf, ceilDiv_one]
  · unfold moveCtor
    dsimp only
    rw [clear_eq]
    simp [bucket_count, hmlf, ceilDiv_one]
  · exact bc_insert_pos hashFn m k v hbc
  · rw [bc_erase]
    exact hbc

/-- Witness for the amended C10 at the default map. -/
theorem C10_amended_witness :
    bucket_count (defaultMap hashId) = 8 ∧
      bucket_count (clear hashId (defaultMap hashId)) = 8 ∧
      bucket_count ((moveCtor hashId (defaultMap hashId)).2) = 8 ∧
      0 < bucket_count ((insert hashId (defaultMap hashId) 1 2).1) ∧
      0 < bucket_count ((erase hashId (defaultMap hashId) 3).1) :=
  C10_bucket_count_positive_amended hashId (defaultMap hashId) 1 2 3 (by decide) (by decide)

end UM
